import Mathlib

/-!
Verification of the CIDR subnet-distribution core of the pulumi-aws-vpc
repository, together with the orchestration-layer helpers of src/src/index.ts.

The subnet-distribution core (CIDR arithmetic and the SubnetDistributor) is
consumed by src/src/index.ts through the import of ./subnetDistributor; its
implementation file is not part of the checked-in sources, so those
definitions are modelled from the specification (sections 3 to 7).  The
helpers that do appear in src/src/index.ts (the perAZ defaulting, the
availability-zone round-robin, and the maxSubnets truncation) are translated
directly from that file.
-/

set_option linter.unusedVariables false

namespace Vpc

instance {ε α : Type} [DecidableEq ε] [DecidableEq α] : DecidableEq (Except ε α) := fun x y =>
  match x, y with
  | .ok a, .ok b =>
    if h : a = b then .isTrue (by rw [h]) else .isFalse (by intro hc; cases hc; exact h rfl)
  | .error a, .error b =>
    if h : a = b then .isTrue (by rw [h]) else .isFalse (by intro hc; cases hc; exact h rfl)
  | .ok _, .error _ => .isFalse (by intro hc; cases hc)
  | .error _, .ok _ => .isFalse (by intro hc; cases hc)

/-- Error kinds of the subnet-distribution core (spec section 7). -/
inductive CidrError where
  | malformedBlock
  | insufficientAddressSpace
  | zoneDirectory
deriving Repr, DecidableEq

/-- An IPv4 network: a 32-bit base address plus a prefix length (spec
section 3, AddressBlock). -/
structure AddressBlock where
  addr : Nat
  prefixLen : Nat
deriving Repr, DecidableEq

/-- Number of addresses covered by a block: 2 to the power of the host-bit
count. -/
def blockSize (b : AddressBlock) : Nat := 2 ^ (32 - b.prefixLen)

/-- Invariant of AddressBlock from spec section 3: prefix length in [0, 32],
address fits in 32 bits, and the host bits are zero (canonical network
address). -/
def AddressBlock.Valid (b : AddressBlock) : Prop :=
  b.prefixLen ≤ 32 ∧ b.addr < 2 ^ 32 ∧ b.addr % 2 ^ (32 - b.prefixLen) = 0

instance (b : AddressBlock) : Decidable b.Valid := by
  unfold AddressBlock.Valid
  infer_instance

/-- Modelled from the spec: overlaps(a, b) is true iff the address ranges
intersect (spec section 4.1). -/
def overlaps (a b : AddressBlock) : Bool :=
  decide (a.addr < b.addr + blockSize b) && decide (b.addr < a.addr + blockSize a)

/-- Containment of address ranges: every address of x is an address of y. -/
def containedIn (x y : AddressBlock) : Prop :=
  y.addr ≤ x.addr ∧ x.addr + blockSize x ≤ y.addr + blockSize y

/-- Modelled from the spec: split(baseBlock, targetPrefix) deterministically
enumerates all children of the target prefix length within the base block, in
ascending address order (spec section 4.1). -/
def split (b : AddressBlock) (target : Nat) : List AddressBlock :=
  (List.range (2 ^ (target - b.prefixLen))).map
    (fun i => ⟨b.addr + i * 2 ^ (32 - target), target⟩)

/-- Search loop of requiredPrefixLength: starting at candidate prefix length
p with exponent e (the distance from the base prefix length) and rem
remaining candidates up to 32, return the first candidate whose subnet count
2 ^ e reaches the request. -/
def rplGo (count p e rem : Nat) : Except CidrError Nat :=
  match rem with
  | 0 => .error .insufficientAddressSpace
  | r + 1 => if count ≤ 2 ^ e then .ok p else rplGo count (p + 1) (e + 1) r

/-- Modelled from the spec: requiredPrefixLength(baseBlock, subnetCount)
returns the smallest prefix length p at least baseBlock.prefix such that
2 ^ (p - baseBlock.prefix) is at least subnetCount, and fails with
InsufficientAddressSpaceError if that p would exceed 32 (spec section 4.1). -/
def requiredPrefixLength (b : AddressBlock) (count : Nat) : Except CidrError Nat :=
  rplGo count b.prefixLen 0 (33 - b.prefixLen)

/-- Lower half of the bisection of a block at prefix length one deeper (spec
section 4.2 step 2, half A, reserved for the public distribution). -/
def lowerHalf (b : AddressBlock) : AddressBlock :=
  ⟨b.addr, b.prefixLen + 1⟩

/-- Upper half of the bisection of a block at prefix length one deeper (spec
section 4.2 step 2, half B, reserved for the private distribution). -/
def upperHalf (b : AddressBlock) : AddressBlock :=
  ⟨b.addr + 2 ^ (32 - (b.prefixLen + 1)), b.prefixLen + 1⟩

/-- Modelled from the spec: within one half, compute the required prefix
length for the requested subnet count, split into equal children, and keep
the first n in ascending order (spec section 4.2 step 3). -/
def subnetsOfHalf (h : AddressBlock) (n : Nat) : Except CidrError (List AddressBlock) :=
  match requiredPrefixLength h n with
  | .ok p => .ok ((split h p).take n)
  | .error e => .error e

/-- Modelled from the spec: the partitioning algorithm of section 4.2 —
bisect the base block at prefix length plus one, carve the public subnets
from the lower half and the private subnets from the upper half. -/
def distribution (b : AddressBlock) (zoneCount perZone : Nat) :
    Except CidrError (List AddressBlock × List AddressBlock) :=
  let n := zoneCount * perZone
  match split b (b.prefixLen + 1) with
  | [hA, hB] =>
    match subnetsOfHalf hA n, subnetsOfHalf hB n with
    | .ok pub, .ok priv => .ok (pub, priv)
    | .error e, _ => .error e
    | _, .error e => .error e
  | _ => .error .insufficientAddressSpace

/-- Split a character list into the groups separated by a separator
character. -/
def splitOnChar (sep : Char) : List Char → List (List Char)
  | [] => [[]]
  | c :: rest =>
    let r := splitOnChar sep rest
    if c = sep then [] :: r
    else
      match r with
      | [] => [[c]]
      | g :: gs => (c :: g) :: gs

/-- Value of a nonempty all-digit character list, most significant digit
first; none on a non-digit. -/
def digitsValue : List Char → Nat → Option Nat
  | [], acc => some acc
  | c :: cs, acc =>
    if c.isDigit then digitsValue cs (acc * 10 + (c.toNat - 48)) else none

/-- Decimal reading of a character list: none when empty or containing a
non-digit character. -/
def decimalToNat (cs : List Char) : Option Nat :=
  match cs with
  | [] => none
  | _ => digitsValue cs 0

/-- The 32-bit address denoted by four dotted-quad components. -/
def quadValue (a b c d : Nat) : Nat :=
  ((a * 256 + b) * 256 + c) * 256 + d

/-- Modelled from the spec: numeric validation step of parse — each octet at
most 255, prefix length in [0, 32], and the base address canonical for its
prefix (zero host bits); reject rather than silently mask (spec
section 4.1). -/
def mkBlock (a b c d p : Nat) : Except CidrError AddressBlock :=
  if a ≤ 255 ∧ b ≤ 255 ∧ c ≤ 255 ∧ d ≤ 255 ∧ p ≤ 32 then
    if quadValue a b c d % 2 ^ (32 - p) = 0 then .ok ⟨quadValue a b c d, p⟩
    else .error .malformedBlock
  else .error .malformedBlock

/-- Modelled from the spec: parse(text) reads dotted-quad/prefix notation
into an AddressBlock and fails with MalformedBlockError on invalid
dotted-quad, prefix outside [0, 32], or non-canonical base address (spec
section 4.1). -/
def parse (text : String) : Except CidrError AddressBlock :=
  match splitOnChar '/' text.data with
  | [quad, pcs] =>
    match splitOnChar '.' quad with
    | [ca, cb, cc, cd] =>
      match decimalToNat ca, decimalToNat cb, decimalToNat cc, decimalToNat cd,
          decimalToNat pcs with
      | some a, some b, some c, some d, some p => mkBlock a b c d p
      | _, _, _, _, _ => .error .malformedBlock
    | _ => .error .malformedBlock
  | _ => .error .malformedBlock

/-- Dotted-quad/prefix rendering of an address block, the text form returned
by the accessors (spec section 6). -/
def blockText (b : AddressBlock) : String :=
  toString (b.addr / 16777216 % 256) ++ "." ++ toString (b.addr / 65536 % 256) ++ "." ++
    toString (b.addr / 256 % 256) ++ "." ++ toString (b.addr % 256) ++ "/" ++
    toString b.prefixLen

/-- Modelled from the spec: the full public pipeline — parse the base CIDR,
compute the distribution, render the public half as text (spec
sections 4.2 and 6). -/
def computePublic (baseCidr : String) (zoneCount perZone : Nat) :
    Except CidrError (List String) :=
  match parse baseCidr with
  | .ok b =>
    match distribution b zoneCount perZone with
    | .ok (pub, _) => .ok (pub.map blockText)
    | .error e => .error e
  | .error e => .error e

/-- Modelled from the spec: the full private pipeline, symmetric to
computePublic on the upper half. -/
def computePrivate (baseCidr : String) (zoneCount perZone : Nat) :
    Except CidrError (List String) :=
  match parse baseCidr with
  | .ok b =>
    match distribution b zoneCount perZone with
    | .ok (_, priv) => .ok (priv.map blockText)
    | .error e => .error e
  | .error e => .error e

/-- Modelled from the spec: a SubnetDistributor holds the topology request
plus a memo slot per accessor; lookupCalls counts invocations of the injected
zone-count lookup capability (spec sections 4.2 and 5). -/
structure SubnetDistributor where
  baseCidr : String
  zoneCount : Nat
  perZone : Nat
  memoPublic : Option (Except CidrError (List String))
  memoPrivate : Option (Except CidrError (List String))
  lookupCalls : Nat
deriving Repr

/-- Modelled from the spec: fixed-count construction entry point — no
external lookup (spec section 6). -/
def SubnetDistributor.fixedCount (baseCidr : String) (zoneCount perZone : Nat) :
    SubnetDistributor :=
  ⟨baseCidr, zoneCount, perZone, none, none, 0⟩

/-- Modelled from the spec: per-availability-zone construction entry point —
invokes the injected zone-count lookup exactly once and then behaves as
fixed-count for the rest of the object's life (spec sections 4.2 and 5).
The injected capability is represented by its (deterministic) outcome. -/
def SubnetDistributor.perAz (baseCidr : String) (perZone : Nat)
    (lookupResult : Except CidrError Nat) : Except CidrError SubnetDistributor :=
  match lookupResult with
  | .ok zc => .ok ⟨baseCidr, zc, perZone, none, none, 1⟩
  | .error e => .error e

/-- Modelled from the spec: the public accessor — compute on first call,
memoize, and return the memoized sequence on later calls (spec
section 4.2). -/
def publicSubnets (d : SubnetDistributor) :
    Except CidrError (List String) × SubnetDistributor :=
  match d.memoPublic with
  | some r => (r, d)
  | none =>
    let r := computePublic d.baseCidr d.zoneCount d.perZone
    (r, ⟨d.baseCidr, d.zoneCount, d.perZone, some r, d.memoPrivate, d.lookupCalls⟩)

/-- Modelled from the spec: the private accessor, symmetric to
publicSubnets. -/
def privateSubnets (d : SubnetDistributor) :
    Except CidrError (List String) × SubnetDistributor :=
  match d.memoPrivate with
  | some r => (r, d)
  | none =>
    let r := computePrivate d.baseCidr d.zoneCount d.perZone
    (r, ⟨d.baseCidr, d.zoneCount, d.perZone, d.memoPublic, some r, d.lookupCalls⟩)

/-- One accessor invocation: true calls publicSubnets, false calls
privateSubnets; only the resulting state is kept. -/
def applyCall (d : SubnetDistributor) (c : Bool) : SubnetDistributor :=
  if c then (publicSubnets d).2 else (privateSubnets d).2

/-- A whole lifetime of accessor invocations against one distributor. -/
def runCalls (d : SubnetDistributor) (calls : List Bool) : SubnetDistributor :=
  calls.foldl applyCall d

/-- Translated from src/src/index.ts line 100: the JS expression
inputs.perAZ || 1, which substitutes 1 when perAZ is 0 or undefined. -/
def effectivePerAZ : Option Nat → Nat
  | none => 1
  | some n => if n = 0 then 1 else n

/-- Translated from src/src/index.ts lines 99 to 105: choose fixed-count or
per-availability-zone construction, passing the defaulted perAZ to both. -/
def vpcDistributorFor (baseCidr : String) (azCount : Option Nat)
    (perAZ : Option Nat) (lookupResult : Except CidrError Nat) :
    Except CidrError SubnetDistributor :=
  match azCount with
  | some zc => .ok (SubnetDistributor.fixedCount baseCidr zc (effectivePerAZ perAZ))
  | none => SubnetDistributor.perAz baseCidr (effectivePerAZ perAZ) lookupResult

/-- Translated from src/src/index.ts lines 107 to 108: concatenation of
repeats copies of an array. -/
def repeatArr (arr : List String) (repeats : Nat) : List String :=
  (List.replicate repeats arr).flatten

/-- Translated from src/src/index.ts lines 118 and 169: the expression
azNames[index % azNames.length]. -/
def azForIndex (azNames : List String) (index : Nat) : Option String :=
  azNames[index % azNames.length]?

/-- Availability zone of public subnet index, from src/src/index.ts
lines 111 to 118: azNames is the available zone list repeated perAZ times. -/
def publicAzName (names : List String) (perAZ index : Nat) : Option String :=
  azForIndex (repeatArr names perAZ) index

/-- Availability zone of private subnet index, from src/src/index.ts
lines 111 to 113 and 169, the same expression as the public one. -/
def privateAzName (names : List String) (perAZ index : Nat) : Option String :=
  azForIndex (repeatArr names perAZ) index

/-- Translated from src/src/index.ts lines 117 and 168: the JS call
slice(0, maxSubnets), which is the whole list when maxSubnets is undefined
and the first maxSubnets elements otherwise. -/
def sliceCap : Option Nat → List String → List String
  | none, xs => xs
  | some m, xs => xs.take m

/-! Helper lemmas about the search loop of requiredPrefixLength. -/

theorem rplGo_ok (count : Nat) :
    ∀ rem p e q, rplGo count p e rem = .ok q →
      ∃ j, j < rem ∧ q = p + j ∧ count ≤ 2 ^ (e + j) ∧
        ∀ i, i < j → ¬ count ≤ 2 ^ (e + i) := by
  intro rem
  induction rem with
  | zero => intro p e q h; simp [rplGo] at h
  | succ r ih =>
    intro p e q h
    rw [rplGo] at h
    by_cases hc : count ≤ 2 ^ e
    · rw [if_pos hc] at h
      refine ⟨0, by omega, ?_, ?_, ?_⟩
      · cases h; omega
      · simpa using hc
      · intro i hi; omega
    · rw [if_neg hc] at h
      obtain ⟨j, hj, hq, hle, hmin⟩ := ih (p + 1) (e + 1) q h
      refine ⟨j + 1, by omega, by omega, ?_, ?_⟩
      · have : e + 1 + j = e + (j + 1) := by omega
        rwa [this] at hle
      · intro i hi
        cases i with
        | zero => simpa using hc
        | succ i =>
          have : e + 1 + i = e + (i + 1) := by omega
          rw [← this]
          exact hmin i (by omega)

theorem rplGo_error_iff (count : Nat) :
    ∀ rem p e err, rplGo count p e rem = .error err ↔
      (err = CidrError.insufficientAddressSpace ∧
        ∀ j, j < rem → ¬ count ≤ 2 ^ (e + j)) := by
  intro rem
  induction rem with
  | zero =>
    intro p e err
    constructor
    · intro h
      rw [rplGo] at h
      cases h
      exact ⟨rfl, by omega⟩
    · rintro ⟨rfl, _⟩; rfl
  | succ r ih =>
    intro p e err
    rw [rplGo]
    by_cases hc : count ≤ 2 ^ e
    · rw [if_pos hc]
      constructor
      · intro h; cases h
      · rintro ⟨rfl, hall⟩
        exact absurd (by simpa using hc) (hall 0 (by omega))
    · rw [if_neg hc]
      rw [ih (p + 1) (e + 1) err]
      constructor
      · rintro ⟨rfl, hall⟩
        refine ⟨rfl, ?_⟩
        intro j hj
        cases j with
        | zero => simpa using hc
        | succ j =>
          have h1 : e + (j + 1) = e + 1 + j := by omega
          rw [h1]
          exact hall j (by omega)
      · rintro ⟨rfl, hall⟩
        refine ⟨rfl, ?_⟩
        intro j hj
        have h1 : e + 1 + j = e + (j + 1) := by omega
        rw [h1]
        exact hall (j + 1) (by omega)

theorem requiredPrefixLength_ok (b : AddressBlock) (n p : Nat)
    (h : requiredPrefixLength b n = .ok p) :
    b.prefixLen ≤ p ∧ p ≤ 32 ∧ n ≤ 2 ^ (p - b.prefixLen) ∧
      ∀ q, b.prefixLen ≤ q → n ≤ 2 ^ (q - b.prefixLen) → p ≤ q := by
  obtain ⟨j, hj, hq, hle, hmin⟩ := rplGo_ok n (33 - b.prefixLen) b.prefixLen 0 p h
  have hsub : p - b.prefixLen = j := by omega
  refine ⟨by omega, by omega, by rw [hsub]; simpa using hle, ?_⟩
  intro q hq1 hq2
  by_contra hlt
  have hi : q - b.prefixLen < j := by omega
  exact hmin (q - b.prefixLen) hi (by simpa using hq2)

theorem requiredPrefixLength_error_iff (b : AddressBlock) (n : Nat) (err : CidrError) :
    requiredPrefixLength b n = .error err ↔
      (err = CidrError.insufficientAddressSpace ∧
        ∀ q, b.prefixLen ≤ q → n ≤ 2 ^ (q - b.prefixLen) → 32 < q) := by
  rw [requiredPrefixLength, rplGo_error_iff]
  constructor
  · rintro ⟨rfl, hall⟩
    refine ⟨rfl, ?_⟩
    intro q hq1 hq2
    by_contra hle
    refine hall (q - b.prefixLen) (by omega) ?_
    simpa using hq2
  · rintro ⟨rfl, hall⟩
    refine ⟨rfl, ?_⟩
    intro j hj hle
    have := hall (b.prefixLen + j) (by omega) (by simpa using hle)
    omega

theorem requiredPrefixLength_ok_exists (b : AddressBlock) (n : Nat)
    (hp : b.prefixLen ≤ 32) (hn : n ≤ 2 ^ (32 - b.prefixLen)) :
    ∃ p, requiredPrefixLength b n = .ok p := by
  cases h : requiredPrefixLength b n with
  | ok p => exact ⟨p, rfl⟩
  | error e =>
    have := (requiredPrefixLength_error_iff b n e).1 h
    have h32 := this.2 32 hp hn
    omega

/-! Helper lemmas about split. -/

theorem split_length (b : AddressBlock) (t : Nat) :
    (split b t).length = 2 ^ (t - b.prefixLen) := by
  simp [split]

theorem split_mem (b : AddressBlock) (t : Nat) (x : AddressBlock) :
    x ∈ split b t ↔
      ∃ i, i < 2 ^ (t - b.prefixLen) ∧
        x = ⟨b.addr + i * 2 ^ (32 - t), t⟩ := by
  simp only [split, List.mem_map, List.mem_range]
  constructor
  · rintro ⟨i, hi, rfl⟩; exact ⟨i, hi, rfl⟩
  · rintro ⟨i, hi, rfl⟩; exact ⟨i, hi, rfl⟩

theorem split_getElem (b : AddressBlock) (t i : Nat) (h : i < (split b t).length) :
    (split b t)[i] = ⟨b.addr + i * 2 ^ (32 - t), t⟩ := by
  simp [split]

theorem split_halves (b : AddressBlock) :
    split b (b.prefixLen + 1) = [lowerHalf b, upperHalf b] := by
  have h1 : b.prefixLen + 1 - b.prefixLen = 1 := by omega
  rw [split, h1]
  have h2 : List.range (2 ^ 1) = [0, 1] := rfl
  rw [h2]
  simp [lowerHalf, upperHalf]

/-! Helper lemmas about containment and overlap. -/

theorem containedIn_trans {x y z : AddressBlock}
    (h1 : containedIn x y) (h2 : containedIn y z) : containedIn x z := by
  unfold containedIn at *
  omega

theorem lowerHalf_containedIn (b : AddressBlock) : containedIn (lowerHalf b) b := by
  have hle : (2 : Nat) ^ (32 - (b.prefixLen + 1)) ≤ 2 ^ (32 - b.prefixLen) :=
    Nat.pow_le_pow_right (by norm_num) (by omega)
  show b.addr ≤ b.addr ∧
    b.addr + 2 ^ (32 - (b.prefixLen + 1)) ≤ b.addr + 2 ^ (32 - b.prefixLen)
  omega

theorem upperHalf_containedIn (b : AddressBlock) (hp : b.prefixLen + 1 ≤ 32) :
    containedIn (upperHalf b) b := by
  have hsplit : (2 : Nat) ^ (32 - b.prefixLen) =
      2 ^ (32 - (b.prefixLen + 1)) + 2 ^ (32 - (b.prefixLen + 1)) := by
    have h1 : 32 - b.prefixLen = (32 - (b.prefixLen + 1)) + 1 := by omega
    rw [h1, pow_succ]
    omega
  show b.addr ≤ b.addr + 2 ^ (32 - (b.prefixLen + 1)) ∧
    b.addr + 2 ^ (32 - (b.prefixLen + 1)) + 2 ^ (32 - (b.prefixLen + 1)) ≤
      b.addr + 2 ^ (32 - b.prefixLen)
  refine ⟨Nat.le_add_right _ _, ?_⟩
  rw [hsplit]
  exact Nat.le_of_eq (Nat.add_assoc _ _ _)

theorem containedIn_of_split_mem (h : AddressBlock) (t : Nat) (x : AddressBlock)
    (hq : h.prefixLen ≤ t) (ht : t ≤ 32) (hx : x ∈ split h t) :
    containedIn x h := by
  obtain ⟨i, hi, rfl⟩ := (split_mem h t x).1 hx
  unfold containedIn blockSize
  simp only
  have hpow : (2 : Nat) ^ (t - h.prefixLen) * 2 ^ (32 - t) = 2 ^ (32 - h.prefixLen) := by
    rw [← pow_add]
    congr 1
    omega
  have hkey : (i + 1) * 2 ^ (32 - t) ≤ 2 ^ (t - h.prefixLen) * 2 ^ (32 - t) :=
    Nat.mul_le_mul_right _ (by omega)
  have hsucc : (i + 1) * 2 ^ (32 - t) = i * 2 ^ (32 - t) + 2 ^ (32 - t) :=
    Nat.succ_mul i _
  omega

theorem overlaps_eq_false_iff (x y : AddressBlock) :
    overlaps x y = false ↔
      y.addr + blockSize y ≤ x.addr ∨ x.addr + blockSize x ≤ y.addr := by
  unfold overlaps
  rw [Bool.and_eq_false_iff]
  simp [Nat.not_lt]

theorem overlaps_false_of_right (x y : AddressBlock)
    (h : x.addr + blockSize x ≤ y.addr) : overlaps x y = false := by
  rw [overlaps_eq_false_iff]
  exact Or.inr h

theorem split_pairwise_no_overlap (b : AddressBlock) (t : Nat) :
    List.Pairwise (fun x y => overlaps x y = false) (split b t) := by
  rw [List.pairwise_iff_get]
  intro i j hij
  rw [List.get_eq_getElem, List.get_eq_getElem, split_getElem, split_getElem]
  apply overlaps_false_of_right
  unfold blockSize
  simp only
  have hsucc : ((i : Nat) + 1) * 2 ^ (32 - t) = (i : Nat) * 2 ^ (32 - t) + 2 ^ (32 - t) :=
    Nat.succ_mul _ _
  have hle : ((i : Nat) + 1) * 2 ^ (32 - t) ≤ (j : Nat) * 2 ^ (32 - t) :=
    Nat.mul_le_mul_right _ (by omega)
  omega

theorem split_pairwise_ascending (b : AddressBlock) (t : Nat) :
    List.Pairwise (fun x y => x.addr < y.addr) (split b t) := by
  rw [List.pairwise_iff_get]
  intro i j hij
  rw [List.get_eq_getElem, List.get_eq_getElem, split_getElem, split_getElem]
  simp only
  have hpos : 0 < 2 ^ (32 - t) := Nat.pos_pow_of_pos _ (by norm_num)
  have : (i : Nat) * 2 ^ (32 - t) < (j : Nat) * 2 ^ (32 - t) :=
    (Nat.mul_lt_mul_right hpos).2 hij
  omega

/-! Helper lemmas about distribution. -/

theorem distribution_eq (b : AddressBlock) (zc pz : Nat) :
    distribution b zc pz =
      match requiredPrefixLength (lowerHalf b) (zc * pz) with
      | .ok p => .ok ((split (lowerHalf b) p).take (zc * pz),
                      (split (upperHalf b) p).take (zc * pz))
      | .error e => .error e := by
  have hup : requiredPrefixLength (upperHalf b) (zc * pz)
      = requiredPrefixLength (lowerHalf b) (zc * pz) := rfl
  simp only [distribution, split_halves, subnetsOfHalf, hup]
  cases requiredPrefixLength (lowerHalf b) (zc * pz) <;> rfl

theorem distribution_ok (b : AddressBlock) (zc pz : Nat)
    (pub priv : List AddressBlock)
    (h : distribution b zc pz = .ok (pub, priv)) :
    ∃ p, requiredPrefixLength (lowerHalf b) (zc * pz) = .ok p ∧
      pub = (split (lowerHalf b) p).take (zc * pz) ∧
      priv = (split (upperHalf b) p).take (zc * pz) := by
  rw [distribution_eq] at h
  cases hr : requiredPrefixLength (lowerHalf b) (zc * pz) with
  | ok p =>
    rw [hr] at h
    simp only [Except.ok.injEq, Prod.mk.injEq] at h
    exact ⟨p, rfl, h.1.symm, h.2.symm⟩
  | error e =>
    rw [hr] at h
    cases h

theorem distribution_lengths (b : AddressBlock) (zc pz : Nat)
    (pub priv : List AddressBlock)
    (h : distribution b zc pz = .ok (pub, priv)) :
    pub.length = zc * pz ∧ priv.length = zc * pz := by
  obtain ⟨p, hp, hpub, hpriv⟩ := distribution_ok b zc pz pub priv h
  obtain ⟨hp1, hp2, hp3, _⟩ := requiredPrefixLength_ok (lowerHalf b) (zc * pz) p hp
  constructor
  · rw [hpub, List.length_take, split_length]
    exact Nat.min_eq_left hp3
  · rw [hpriv, List.length_take, split_length]
    exact Nat.min_eq_left hp3

theorem distribution_pub_contained (b : AddressBlock) (zc pz : Nat)
    (pub priv : List AddressBlock)
    (h : distribution b zc pz = .ok (pub, priv)) :
    ∀ x ∈ pub, containedIn x (lowerHalf b) := by
  obtain ⟨p, hp, hpub, hpriv⟩ := distribution_ok b zc pz pub priv h
  obtain ⟨hp1, hp2, hp3, _⟩ := requiredPrefixLength_ok (lowerHalf b) (zc * pz) p hp
  intro x hx
  rw [hpub] at hx
  exact containedIn_of_split_mem _ p x hp1 hp2 (List.mem_of_mem_take hx)

theorem distribution_priv_contained (b : AddressBlock) (zc pz : Nat)
    (pub priv : List AddressBlock)
    (h : distribution b zc pz = .ok (pub, priv)) :
    ∀ y ∈ priv, containedIn y (upperHalf b) := by
  obtain ⟨p, hp, hpub, hpriv⟩ := distribution_ok b zc pz pub priv h
  obtain ⟨hp1, hp2, hp3, _⟩ := requiredPrefixLength_ok (lowerHalf b) (zc * pz) p hp
  intro y hy
  rw [hpriv] at hy
  exact containedIn_of_split_mem _ p y hp1 hp2 (List.mem_of_mem_take hy)

theorem distribution_halves_le_32 (b : AddressBlock) (zc pz : Nat)
    (pub priv : List AddressBlock)
    (h : distribution b zc pz = .ok (pub, priv)) :
    b.prefixLen + 1 ≤ 32 := by
  obtain ⟨p, hp, _, _⟩ := distribution_ok b zc pz pub priv h
  obtain ⟨hp1, hp2, _, _⟩ := requiredPrefixLength_ok (lowerHalf b) (zc * pz) p hp
  exact le_trans hp1 hp2

theorem cross_no_overlap (b : AddressBlock) (x y : AddressBlock)
    (hx : containedIn x (lowerHalf b)) (hy : containedIn y (upperHalf b)) :
    overlaps x y = false := by
  apply overlaps_false_of_right
  have h1 : x.addr + blockSize x ≤ b.addr + 2 ^ (32 - (b.prefixLen + 1)) := hx.2
  have h2 : b.addr + 2 ^ (32 - (b.prefixLen + 1)) ≤ y.addr := hy.1
  omega

/-- C1: for every valid topology (base block, zoneCount at least 1, perZone at
least 1) whose computation succeeds, the public and private sequences each
hold exactly zoneCount times perZone blocks; all blocks of both sequences
together are pairwise non-overlapping; every block lies inside the base
block; and no block crosses the half boundary — each public block lies in the
lower half, each private block in the upper half. -/
theorem claim1_partition_invariants (b : AddressBlock) (zc pz : Nat)
    (hb : b.Valid) (hzc : 1 ≤ zc) (hpz : 1 ≤ pz)
    (pub priv : List AddressBlock)
    (hok : distribution b zc pz = .ok (pub, priv)) :
    pub.length = zc * pz ∧ priv.length = zc * pz ∧
    List.Pairwise (fun x y => overlaps x y = false) (pub ++ priv) ∧
    (∀ x ∈ pub ++ priv, containedIn x b) ∧
    (∀ x ∈ pub, containedIn x (lowerHalf b)) ∧
    (∀ y ∈ priv, containedIn y (upperHalf b)) := by
  obtain ⟨p, hp, hpub, hpriv⟩ := distribution_ok b zc pz pub priv hok
  have hcontL := distribution_pub_contained b zc pz pub priv hok
  have hcontU := distribution_priv_contained b zc pz pub priv hok
  have hhalf32 := distribution_halves_le_32 b zc pz pub priv hok
  obtain ⟨hlen1, hlen2⟩ := distribution_lengths b zc pz pub priv hok
  refine ⟨hlen1, hlen2, ?_, ?_, hcontL, hcontU⟩
  · rw [List.pairwise_append]
    refine ⟨?_, ?_, ?_⟩
    · rw [hpub]
      exact (split_pairwise_no_overlap _ p).sublist (List.take_sublist _ _)
    · rw [hpriv]
      exact (split_pairwise_no_overlap _ p).sublist (List.take_sublist _ _)
    · intro x hx y hy
      exact cross_no_overlap b x y (hcontL x hx) (hcontU y hy)
  · intro x hx
    rcases List.mem_append.1 hx with h | h
    · exact containedIn_trans (hcontL x h) (lowerHalf_containedIn b)
    · exact containedIn_trans (hcontU x h) (upperHalf_containedIn b hhalf32)

/-- C1 witness: the invariants instantiated on 10.0.0.0/16 with two zones and
one subnet per zone. -/
theorem claim1_witness :
    (⟨167772160, 16⟩ : AddressBlock).Valid ∧ 1 ≤ 2 ∧ 1 ≤ 1 ∧
    distribution ⟨167772160, 16⟩ 2 1 =
      .ok ([⟨167772160, 18⟩, ⟨167788544, 18⟩], [⟨167804928, 18⟩, ⟨167821312, 18⟩]) ∧
    ([⟨167772160, 18⟩, ⟨167788544, 18⟩] : List AddressBlock).length = 2 * 1 :=
  ⟨by decide, by decide, by decide, by decide,
    (claim1_partition_invariants ⟨167772160, 16⟩ 2 1 (by decide) (by decide) (by decide)
      [⟨167772160, 18⟩, ⟨167788544, 18⟩] [⟨167804928, 18⟩, ⟨167821312, 18⟩] (by decide)).1⟩

/-- C3: requiredPrefixLength returns the smallest prefix length p at least
the base prefix with 2 to the (p minus base prefix) at least subnetCount, and
fails with InsufficientAddressSpaceError exactly when that smallest p exceeds
32. -/
theorem claim3_requiredPrefixLength (b : AddressBlock) (count : Nat)
    (hc : 1 ≤ count) :
    (∀ p, requiredPrefixLength b count = .ok p →
      b.prefixLen ≤ p ∧ p ≤ 32 ∧ count ≤ 2 ^ (p - b.prefixLen) ∧
      ∀ q, b.prefixLen ≤ q → count ≤ 2 ^ (q - b.prefixLen) → p ≤ q) ∧
    ((∃ e, requiredPrefixLength b count = .error e) ↔
      ∀ q, b.prefixLen ≤ q → count ≤ 2 ^ (q - b.prefixLen) → 32 < q) ∧
    (∀ e, requiredPrefixLength b count = .error e →
      e = CidrError.insufficientAddressSpace) := by
  refine ⟨fun p hp => requiredPrefixLength_ok b count p hp, ⟨?_, ?_⟩, ?_⟩
  · rintro ⟨e, he⟩
    exact ((requiredPrefixLength_error_iff b count e).1 he).2
  · intro hall
    cases h : requiredPrefixLength b count with
    | ok p =>
      obtain ⟨h1, h2, h3, _⟩ := requiredPrefixLength_ok b count p h
      exact absurd (hall p h1 h3) (by omega)
    | error e => exact ⟨e, rfl⟩
  · intro e he
    exact ((requiredPrefixLength_error_iff b count e).1 he).1

/-- C3 witness: the characterization instantiated at 10.0.0.0/16 requesting
five subnets, where the smallest adequate prefix length is 19. -/
theorem claim3_witness :
    1 ≤ 5 ∧ requiredPrefixLength ⟨167772160, 16⟩ 5 = .ok 19 ∧
    ((∀ p, requiredPrefixLength ⟨167772160, 16⟩ 5 = .ok p →
      (⟨167772160, 16⟩ : AddressBlock).prefixLen ≤ p ∧ p ≤ 32 ∧
      5 ≤ 2 ^ (p - (⟨167772160, 16⟩ : AddressBlock).prefixLen) ∧
      ∀ q, (⟨167772160, 16⟩ : AddressBlock).prefixLen ≤ q →
        5 ≤ 2 ^ (q - (⟨167772160, 16⟩ : AddressBlock).prefixLen) → p ≤ q) ∧
    ((∃ e, requiredPrefixLength ⟨167772160, 16⟩ 5 = .error e) ↔
      ∀ q, (⟨167772160, 16⟩ : AddressBlock).prefixLen ≤ q →
        5 ≤ 2 ^ (q - (⟨167772160, 16⟩ : AddressBlock).prefixLen) → 32 < q) ∧
    (∀ e, requiredPrefixLength ⟨167772160, 16⟩ 5 = .error e →
      e = CidrError.insufficientAddressSpace)) :=
  ⟨by decide, by decide, claim3_requiredPrefixLength ⟨167772160, 16⟩ 5 (by decide)⟩

/-- C4: requesting exactly the maximum number of prefix-32 subnets one half
can hold succeeds, one more fails with InsufficientAddressSpaceError, and
10.0.0.0/30 with four zones and one subnet per zone fails that way. -/
theorem claim4_boundary (b : AddressBlock) (hb : b.Valid)
    (hp : b.prefixLen + 1 ≤ 32) :
    (∀ zc pz, zc * pz = 2 ^ (32 - (b.prefixLen + 1)) →
      ∃ pub priv, distribution b zc pz = .ok (pub, priv)) ∧
    (∀ zc pz, zc * pz = 2 ^ (32 - (b.prefixLen + 1)) + 1 →
      distribution b zc pz = .error .insufficientAddressSpace) ∧
    computePublic "10.0.0.0/30" 4 1 = .error .insufficientAddressSpace := by
  refine ⟨?_, ?_, by decide⟩
  · intro zc pz hn
    obtain ⟨p, hpok⟩ := requiredPrefixLength_ok_exists (lowerHalf b) (zc * pz) hp (le_of_eq hn)
    rw [distribution_eq, hpok]
    exact ⟨_, _, rfl⟩
  · intro zc pz hn
    cases h : requiredPrefixLength (lowerHalf b) (zc * pz) with
    | ok p =>
      obtain ⟨h1, h2, h3, _⟩ := requiredPrefixLength_ok (lowerHalf b) (zc * pz) p h
      have hh1 : b.prefixLen + 1 ≤ p := h1
      have hmono : (2 : Nat) ^ (p - (b.prefixLen + 1)) ≤ 2 ^ (32 - (b.prefixLen + 1)) :=
        Nat.pow_le_pow_right (by norm_num) (by omega)
      have h3a : zc * pz ≤ 2 ^ (p - (b.prefixLen + 1)) := h3
      omega
    | error e =>
      have he := ((requiredPrefixLength_error_iff _ _ e).1 h).1
      rw [distribution_eq, h, he]

/-- C4 witness: the boundary behavior instantiated at 10.0.0.0/16: each half
is a /17, 32768 subnets of prefix 32 fit exactly, 32769 do not. -/
theorem claim4_witness :
    (⟨167772160, 16⟩ : AddressBlock).Valid ∧ 16 + 1 ≤ 32 ∧
    (2 : Nat) ^ (32 - (16 + 1)) = 32768 ∧
    distribution ⟨167772160, 16⟩ 32769 1 = .error .insufficientAddressSpace :=
  ⟨by decide, by decide, by decide,
    (claim4_boundary ⟨167772160, 16⟩ (by decide) (by decide)).2.1 32769 1 (by decide)⟩

theorem distribution_pub_ascending (b : AddressBlock) (zc pz : Nat)
    (pub priv : List AddressBlock)
    (h : distribution b zc pz = .ok (pub, priv)) :
    List.Pairwise (fun x y => x.addr < y.addr) pub := by
  obtain ⟨p, hp, hpub, hpriv⟩ := distribution_ok b zc pz pub priv h
  rw [hpub]
  exact (split_pairwise_ascending _ p).sublist (List.take_sublist _ _)

theorem distribution_priv_ascending (b : AddressBlock) (zc pz : Nat)
    (pub priv : List AddressBlock)
    (h : distribution b zc pz = .ok (pub, priv)) :
    List.Pairwise (fun x y => x.addr < y.addr) priv := by
  obtain ⟨p, hp, hpub, hpriv⟩ := distribution_ok b zc pz pub priv h
  rw [hpriv]
  exact (split_pairwise_ascending _ p).sublist (List.take_sublist _ _)

/-- C2: the base block is bisected into two equal halves at prefix length
plus one; the public list always occupies the lower-address half and the
private list the upper-address half, each in ascending address order,
regardless of which accessor is called first; and on 10.0.0.0/16 with two
zones and one subnet per zone the accessors return exactly the spec's
example sequences. -/
theorem claim2_halves_and_order :
    (∀ b : AddressBlock, split b (b.prefixLen + 1) = [lowerHalf b, upperHalf b] ∧
      blockSize (lowerHalf b) = blockSize (upperHalf b) ∧
      (upperHalf b).addr = b.addr + blockSize (lowerHalf b)) ∧
    (∀ b zc pz (pub priv : List AddressBlock),
      distribution b zc pz = .ok (pub, priv) →
      List.Pairwise (fun x y => x.addr < y.addr) pub ∧
      List.Pairwise (fun x y => x.addr < y.addr) priv ∧
      (∀ x ∈ pub, containedIn x (lowerHalf b)) ∧
      (∀ y ∈ priv, containedIn y (upperHalf b))) ∧
    (∀ d : SubnetDistributor,
      (publicSubnets (privateSubnets d).2).1 = (publicSubnets d).1 ∧
      (privateSubnets (publicSubnets d).2).1 = (privateSubnets d).1) ∧
    (publicSubnets (SubnetDistributor.fixedCount "10.0.0.0/16" 2 1)).1 =
      .ok ["10.0.0.0/18", "10.0.64.0/18"] ∧
    (privateSubnets (SubnetDistributor.fixedCount "10.0.0.0/16" 2 1)).1 =
      .ok ["10.0.128.0/18", "10.0.192.0/18"] := by
  refine ⟨?_, ?_, ?_, by decide, by decide⟩
  · intro b
    exact ⟨split_halves b, rfl, rfl⟩
  · intro b zc pz pub priv h
    exact ⟨distribution_pub_ascending b zc pz pub priv h,
      distribution_priv_ascending b zc pz pub priv h,
      distribution_pub_contained b zc pz pub priv h,
      distribution_priv_contained b zc pz pub priv h⟩
  · intro d
    constructor
    · cases hm : d.memoPrivate with
      | some r => simp [privateSubnets, hm]
      | none =>
        cases hp : d.memoPublic with
        | some r => simp [privateSubnets, publicSubnets, hm, hp]
        | none => simp [privateSubnets, publicSubnets, hm, hp]
    · cases hm : d.memoPublic with
      | some r => simp [publicSubnets, hm]
      | none =>
        cases hp : d.memoPrivate with
        | some r => simp [publicSubnets, privateSubnets, hm, hp]
        | none => simp [publicSubnets, privateSubnets, hm, hp]

/-- C2 witness: the half-assignment and ordering facts instantiated on
10.0.0.0/16 with two zones and one subnet per zone. -/
theorem claim2_witness :
    distribution ⟨167772160, 16⟩ 2 1 =
      .ok ([⟨167772160, 18⟩, ⟨167788544, 18⟩], [⟨167804928, 18⟩, ⟨167821312, 18⟩]) ∧
    List.Pairwise (fun x y => x.addr < y.addr)
      ([⟨167772160, 18⟩, ⟨167788544, 18⟩] : List AddressBlock) :=
  ⟨by decide,
    (claim2_halves_and_order.2.1 ⟨167772160, 16⟩ 2 1
      [⟨167772160, 18⟩, ⟨167788544, 18⟩] [⟨167804928, 18⟩, ⟨167821312, 18⟩]
      (by decide)).1⟩

theorem mkBlock_ok (a b c d p : Nat) (blk : AddressBlock)
    (h : mkBlock a b c d p = .ok blk) :
    blk.addr = quadValue a b c d ∧ blk.prefixLen = p ∧
    a ≤ 255 ∧ b ≤ 255 ∧ c ≤ 255 ∧ d ≤ 255 ∧ p ≤ 32 ∧
    quadValue a b c d % 2 ^ (32 - p) = 0 := by
  rw [mkBlock] at h
  split at h
  · rename_i hcond
    split at h
    · rename_i hmod
      cases h
      exact ⟨rfl, rfl, hcond.1, hcond.2.1, hcond.2.2.1, hcond.2.2.2.1,
        hcond.2.2.2.2, hmod⟩
    · cases h
  · cases h

theorem quadValue_lt (a b c d : Nat)
    (ha : a ≤ 255) (hb : b ≤ 255) (hc : c ≤ 255) (hd : d ≤ 255) :
    quadValue a b c d < 2 ^ 32 := by
  unfold quadValue
  have h32 : (2 : Nat) ^ 32 = 4294967296 := by norm_num
  omega

theorem parse_ok_canonical (t : String) (blk : AddressBlock)
    (h : parse t = .ok blk) :
    blk.prefixLen ≤ 32 ∧ blk.addr < 2 ^ 32 ∧
      blk.addr % 2 ^ (32 - blk.prefixLen) = 0 := by
  rw [parse] at h
  split at h
  · split at h
    · split at h
      · rename_i a b c d p _ _ _ _ _
        obtain ⟨haddr, hpl, ha, hb, hc, hd, hple, hmod⟩ := mkBlock_ok a b c d p blk h
        rw [haddr, hpl]
        exact ⟨hple, quadValue_lt a b c d ha hb hc hd, hmod⟩
      · cases h
    · cases h
  · cases h

/-- C5: parse rejects with MalformedBlockError any text that is not valid
dotted-quad/prefix notation, any prefix outside [0, 32], and any base address
with non-zero host bits; 10.0.0.5/24 is rejected before any split is
attempted, and a successful parse always returns the exact, canonical
address it read — never a silently masked one. -/
theorem claim5_parse_rejects_malformed :
    parse "10.0.0.5/24" = .error .malformedBlock ∧
    (∀ zc pz, computePublic "10.0.0.5/24" zc pz = .error .malformedBlock) ∧
    (∀ a b c d p blk, mkBlock a b c d p = .ok blk →
      blk.addr = quadValue a b c d ∧ blk.prefixLen = p ∧
      a ≤ 255 ∧ b ≤ 255 ∧ c ≤ 255 ∧ d ≤ 255 ∧ p ≤ 32 ∧
      quadValue a b c d % 2 ^ (32 - p) = 0) ∧
    (∀ a b c d p, 32 < p ∨ quadValue a b c d % 2 ^ (32 - p) ≠ 0 →
      mkBlock a b c d p = .error .malformedBlock) ∧
    (∀ t blk, parse t = .ok blk →
      blk.prefixLen ≤ 32 ∧ blk.addr < 2 ^ 32 ∧
      blk.addr % 2 ^ (32 - blk.prefixLen) = 0) := by
  refine ⟨by decide, ?_, mkBlock_ok, ?_, parse_ok_canonical⟩
  · intro zc pz
    have hparse : parse "10.0.0.5/24" = .error .malformedBlock := by decide
    rw [computePublic, hparse]
  · intro a b c d p hbad
    rw [mkBlock]
    split
    · rename_i hcond
      split
      · rename_i hmod
        rcases hbad with h32 | hm
        · omega
        · exact absurd hmod hm
      · rfl
    · rfl

/-- C5 witness: the rejection and canonicity facts instantiated at
10.0.0.5/24 (rejected) and 10.0.0.0/24 (accepted, returned verbatim). -/
theorem claim5_witness :
    computePublic "10.0.0.5/24" 2 1 = .error .malformedBlock ∧
    mkBlock 10 0 0 5 24 = .error .malformedBlock ∧
    (parse "10.0.0.0/24" = .ok ⟨167772160, 24⟩ ∧
      (⟨167772160, 24⟩ : AddressBlock).prefixLen ≤ 32 ∧
      (⟨167772160, 24⟩ : AddressBlock).addr < 2 ^ 32 ∧
      (⟨167772160, 24⟩ : AddressBlock).addr %
        2 ^ (32 - (⟨167772160, 24⟩ : AddressBlock).prefixLen) = 0) :=
  ⟨claim5_parse_rejects_malformed.2.1 2 1,
    claim5_parse_rejects_malformed.2.2.2.1 10 0 0 5 24
      (Or.inr (by decide)),
    by decide,
    claim5_parse_rejects_malformed.2.2.2.2 "10.0.0.0/24" ⟨167772160, 24⟩ (by decide)⟩

theorem publicSubnets_lookupCalls (d : SubnetDistributor) :
    (publicSubnets d).2.lookupCalls = d.lookupCalls := by
  cases h : d.memoPublic <;> simp [publicSubnets, h]

theorem privateSubnets_lookupCalls (d : SubnetDistributor) :
    (privateSubnets d).2.lookupCalls = d.lookupCalls := by
  cases h : d.memoPrivate <;> simp [privateSubnets, h]

theorem applyCall_lookupCalls (d : SubnetDistributor) (c : Bool) :
    (applyCall d c).lookupCalls = d.lookupCalls := by
  cases c <;>
    simp [applyCall, publicSubnets_lookupCalls, privateSubnets_lookupCalls]

theorem runCalls_lookupCalls (calls : List Bool) :
    ∀ d : SubnetDistributor, (runCalls d calls).lookupCalls = d.lookupCalls := by
  induction calls with
  | nil => intro d; rfl
  | cons c cs ih =>
    intro d
    have hstep : runCalls d (c :: cs) = runCalls (applyCall d c) cs := rfl
    rw [hstep, ih, applyCall_lookupCalls]

/-- C6: calling an accessor a second time on the same distributor returns the
identical sequence, and a per-availability-zone distributor invokes the
zone-count lookup exactly once at construction — its lookup count stays 1
over any sequence of accessor calls. -/
theorem claim6_idempotence_single_lookup :
    (∀ d : SubnetDistributor,
      (publicSubnets (publicSubnets d).2).1 = (publicSubnets d).1 ∧
      (privateSubnets (privateSubnets d).2).1 = (privateSubnets d).1) ∧
    (∀ bc pz lr d, SubnetDistributor.perAz bc pz lr = .ok d →
      ∀ calls : List Bool, (runCalls d calls).lookupCalls = 1) := by
  constructor
  · intro d
    constructor
    · cases h : d.memoPublic <;> simp [publicSubnets, h]
    · cases h : d.memoPrivate <;> simp [privateSubnets, h]
  · intro bc pz lr d h calls
    rw [runCalls_lookupCalls]
    cases lr with
    | ok zc =>
      rw [SubnetDistributor.perAz] at h
      cases h
      rfl
    | error e =>
      rw [SubnetDistributor.perAz] at h
      cases h

/-- C6 witness: a per-availability-zone distributor built from a lookup
returning three zones keeps lookupCalls at 1 across three accessor calls. -/
theorem claim6_witness :
    SubnetDistributor.perAz "10.0.0.0/16" 1 (.ok 3) =
      .ok ⟨"10.0.0.0/16", 3, 1, none, none, 1⟩ ∧
    (runCalls ⟨"10.0.0.0/16", 3, 1, none, none, 1⟩
      [true, false, true]).lookupCalls = 1 :=
  ⟨rfl, claim6_idempotence_single_lookup.2 "10.0.0.0/16" 1 (.ok 3)
    ⟨"10.0.0.0/16", 3, 1, none, none, 1⟩ rfl [true, false, true]⟩

theorem computePublic_congr (bc1 bc2 : String) (zc pz : Nat)
    (h : parse bc1 = parse bc2) :
    computePublic bc1 zc pz = computePublic bc2 zc pz := by
  simp only [computePublic, h]

theorem computePrivate_congr (bc1 bc2 : String) (zc pz : Nat)
    (h : parse bc1 = parse bc2) :
    computePrivate bc1 zc pz = computePrivate bc2 zc pz := by
  simp only [computePrivate, h]

/-- C7: the distribution is a deterministic function of the topology alone —
two constructions with the same parsed base block, zone count and per-zone
count yield byte-identical CIDR text sequences, in fixed-count mode and in
per-availability-zone mode alike. -/
theorem claim7_determinism (bc1 bc2 : String) (zc pz : Nat)
    (hparse : parse bc1 = parse bc2) :
    (publicSubnets (SubnetDistributor.fixedCount bc1 zc pz)).1 =
      (publicSubnets (SubnetDistributor.fixedCount bc2 zc pz)).1 ∧
    (privateSubnets (SubnetDistributor.fixedCount bc1 zc pz)).1 =
      (privateSubnets (SubnetDistributor.fixedCount bc2 zc pz)).1 ∧
    (∀ lr d1 d2, SubnetDistributor.perAz bc1 pz lr = .ok d1 →
      SubnetDistributor.perAz bc2 pz lr = .ok d2 →
      (publicSubnets d1).1 = (publicSubnets d2).1 ∧
      (privateSubnets d1).1 = (privateSubnets d2).1) := by
  refine ⟨?_, ?_, ?_⟩
  · show computePublic bc1 zc pz = computePublic bc2 zc pz
    exact computePublic_congr bc1 bc2 zc pz hparse
  · show computePrivate bc1 zc pz = computePrivate bc2 zc pz
    exact computePrivate_congr bc1 bc2 zc pz hparse
  · intro lr d1 d2 h1 h2
    cases lr with
    | ok zcr =>
      rw [SubnetDistributor.perAz] at h1 h2
      cases h1
      cases h2
      constructor
      · show computePublic bc1 zcr pz = computePublic bc2 zcr pz
        exact computePublic_congr bc1 bc2 zcr pz hparse
      · show computePrivate bc1 zcr pz = computePrivate bc2 zcr pz
        exact computePrivate_congr bc1 bc2 zcr pz hparse
    | error e =>
      rw [SubnetDistributor.perAz] at h1
      cases h1

/-- C7 witness: determinism instantiated on two identical constructions from
10.0.0.0/16. -/
theorem claim7_witness :
    parse "10.0.0.0/16" = parse "10.0.0.0/16" ∧
    (publicSubnets (SubnetDistributor.fixedCount "10.0.0.0/16" 2 1)).1 =
      (publicSubnets (SubnetDistributor.fixedCount "10.0.0.0/16" 2 1)).1 :=
  ⟨rfl, (claim7_determinism "10.0.0.0/16" "10.0.0.0/16" 2 1 rfl).1⟩

theorem computePublic_ok_length (bc : String) (zc pz : Nat) (xs : List String)
    (h : computePublic bc zc pz = .ok xs) : xs.length = zc * pz := by
  rw [computePublic] at h
  split at h
  · rename_i b hb
    split at h
    · rename_i pub snd hd
      cases h
      rw [List.length_map]
      exact (distribution_lengths b zc pz pub snd hd).1
    · cases h
  · cases h

/-- C8: the distributor always computes the full zoneCount times perZone
sequence; the maxSubnets cap is applied by the caller as a list prefix, so
the subnets created are exactly the first min(cap, zoneCount times perZone)
elements, and every element below the cap keeps the value it has without a
cap. -/
theorem claim8_truncation (bc : String) (zc pz m : Nat) (xs : List String)
    (hxs : (publicSubnets (SubnetDistributor.fixedCount bc zc pz)).1 = .ok xs) :
    xs.length = zc * pz ∧
    sliceCap none xs = xs ∧
    (sliceCap (some m) xs).length = min m (zc * pz) ∧
    (∀ i, i < m → (sliceCap (some m) xs)[i]? = xs[i]?) := by
  have h : computePublic bc zc pz = .ok xs := hxs
  have hlen := computePublic_ok_length bc zc pz xs h
  refine ⟨hlen, rfl, ?_, ?_⟩
  · show (xs.take m).length = min m (zc * pz)
    rw [List.length_take, hlen]
  · intro i hi
    exact List.getElem?_take_of_lt hi

/-- C8 witness: the truncation facts instantiated with a cap of one on the
10.0.0.0/16 two-zone distribution. -/
theorem claim8_witness :
    (publicSubnets (SubnetDistributor.fixedCount "10.0.0.0/16" 2 1)).1 =
      .ok ["10.0.0.0/18", "10.0.64.0/18"] ∧
    (["10.0.0.0/18", "10.0.64.0/18"] : List String).length = 2 * 1 ∧
    (sliceCap (some 1) ["10.0.0.0/18", "10.0.64.0/18"]).length = min 1 (2 * 1) :=
  ⟨by decide,
    (claim8_truncation "10.0.0.0/16" 2 1 1 ["10.0.0.0/18", "10.0.64.0/18"]
      (by decide)).1,
    (claim8_truncation "10.0.0.0/16" 2 1 1 ["10.0.0.0/18", "10.0.64.0/18"]
      (by decide)).2.2.1⟩

theorem repeatArr_length (names : List String) (k : Nat) :
    (repeatArr names k).length = k * names.length := by
  induction k with
  | zero => rw [Nat.zero_mul]; rfl
  | succ n ih =>
    show (List.replicate (n + 1) names).flatten.length = (n + 1) * names.length
    rw [List.replicate_succ, List.flatten_cons, List.length_append]
    have hih : (List.replicate n names).flatten.length = n * names.length := ih
    rw [hih]
    ring

theorem repeatArr_getElem (names : List String) (k : Nat) :
    ∀ j, j < k * names.length →
      (repeatArr names k)[j]? = names[j % names.length]? := by
  induction k with
  | zero =>
    intro j hj
    exact absurd hj (by omega)
  | succ n ih =>
    intro j hj
    have hstep : repeatArr names (n + 1) = names ++ repeatArr names n := by
      show (List.replicate (n + 1) names).flatten = names ++ repeatArr names n
      rw [List.replicate_succ, List.flatten_cons]
      rfl
    have hexp : (n + 1) * names.length = n * names.length + names.length :=
      Nat.succ_mul n names.length
    rw [hstep]
    by_cases hlt : j < names.length
    · rw [List.getElem?_append_left hlt, Nat.mod_eq_of_lt hlt]
    · push_neg at hlt
      rw [List.getElem?_append_right hlt, ih (j - names.length) (by omega)]
      congr 1
      exact (Nat.mod_eq_sub_mod hlt).symm

/-- C9: subnet index i in either the public or the private list is assigned
availability zone azNames[i mod azNames.length], where azNames is the
available-zone list repeated perAZ times; both lists use the same rule, so
public subnet i and private subnet i share a zone, and the rule is a
round-robin over the underlying zone list. -/
theorem claim9_az_round_robin (names : List String) (perAZ : Nat)
    (hn : names ≠ []) (hp : 1 ≤ perAZ) :
    (∀ i, publicAzName names perAZ i = privateAzName names perAZ i) ∧
    (∀ i, publicAzName names perAZ i =
      (repeatArr names perAZ)[i % (repeatArr names perAZ).length]?) ∧
    (∀ i, publicAzName names perAZ i =
      names[i % (perAZ * names.length) % names.length]?) := by
  have hlen : (repeatArr names perAZ).length = perAZ * names.length :=
    repeatArr_length names perAZ
  have hpos : 0 < perAZ * names.length :=
    Nat.mul_pos hp (List.length_pos.2 hn)
  refine ⟨fun i => rfl, fun i => rfl, ?_⟩
  intro i
  show (repeatArr names perAZ)[i % (repeatArr names perAZ).length]? =
    names[i % (perAZ * names.length) % names.length]?
  rw [hlen]
  exact repeatArr_getElem names perAZ (i % (perAZ * names.length))
    (Nat.mod_lt i hpos)

/-- C9 witness: with zones a, b, c repeated twice, subnet 4 of both lists is
assigned zone b. -/
theorem claim9_witness :
    (["a", "b", "c"] : List String) ≠ [] ∧ 1 ≤ 2 ∧
    publicAzName ["a", "b", "c"] 2 4 = privateAzName ["a", "b", "c"] 2 4 ∧
    publicAzName ["a", "b", "c"] 2 4 = some "b" :=
  ⟨by decide, by decide,
    (claim9_az_round_robin ["a", "b", "c"] 2 (by decide) (by decide)).1 4,
    by decide⟩

/-- C10: when the perAZ input is 0 or undefined, construction does not fail —
the value 1 is silently substituted before the distributor is built, in the
fixed-count branch and in the per-availability-zone branch alike, so the
perZone precondition is established by defaulting rather than rejection. -/
theorem claim10_perAZ_default :
    (∀ p, 1 ≤ effectivePerAZ p) ∧
    effectivePerAZ none = 1 ∧
    effectivePerAZ (some 0) = 1 ∧
    (∀ n, 1 ≤ n → effectivePerAZ (some n) = n) ∧
    (∀ bc zc p lr, vpcDistributorFor bc (some zc) p lr =
      .ok (SubnetDistributor.fixedCount bc zc (effectivePerAZ p))) ∧
    (∀ bc p lr d, vpcDistributorFor bc none p lr = .ok d →
      d.perZone = effectivePerAZ p ∧ 1 ≤ d.perZone) := by
  have hge : ∀ p, 1 ≤ effectivePerAZ p := by
    intro p
    cases p with
    | none => exact le_refl 1
    | some n =>
      show 1 ≤ if n = 0 then 1 else n
      split <;> omega
  refine ⟨hge, rfl, rfl, ?_, ?_, ?_⟩
  · intro n hn
    show (if n = 0 then 1 else n) = n
    rw [if_neg (by omega)]
  · intro bc zc p lr
    rfl
  · intro bc p lr d h
    have h2 : SubnetDistributor.perAz bc (effectivePerAZ p) lr = .ok d := h
    cases lr with
    | ok zc =>
      rw [SubnetDistributor.perAz] at h2
      cases h2
      exact ⟨rfl, hge p⟩
    | error e =>
      rw [SubnetDistributor.perAz] at h2
      cases h2

/-- C10 witness: a per-availability-zone construction with perAZ given as 0
succeeds and carries perZone 1. -/
theorem claim10_witness :
    vpcDistributorFor "10.0.0.0/16" none (some 0) (.ok 2) =
      .ok ⟨"10.0.0.0/16", 2, 1, none, none, 1⟩ ∧
    (⟨"10.0.0.0/16", 2, 1, none, none, 1⟩ : SubnetDistributor).perZone = 1 :=
  ⟨rfl,
    (claim10_perAZ_default.2.2.2.2.2 "10.0.0.0/16" (some 0) (.ok 2)
      ⟨"10.0.0.0/16", 2, 1, none, none, 1⟩ rfl).1⟩

example : parse "10.0.0.0/16" = .ok ⟨167772160, 16⟩ := by decide
example : parse "10.0.0.5/24" = .error .malformedBlock := by decide
example : requiredPrefixLength ⟨167772160, 17⟩ 2 = .ok 18 := by decide
example : computePublic "10.0.0.0/16" 2 1 = .ok ["10.0.0.0/18", "10.0.64.0/18"] := by decide
example : computePrivate "10.0.0.0/16" 2 1 = .ok ["10.0.128.0/18", "10.0.192.0/18"] := by decide
example : computePublic "10.0.0.0/30" 4 1 = .error .insufficientAddressSpace := by decide

end Vpc
